import Mathlib

/-!
Verification of the VRM animation pipeline (threejs-vrm-test).

This file gives a shallow embedding, in Lean 4, of the pose/expression
pipeline of the repository: the Mixamo-to-VRM retargeting step
(`loadMixamoAnimation`), the animation playback controller
(`AnimationController`), the expression scheduler (`ExpressionController`
with its `BlinkController` and `EmotionController`), the arm-spacing
overlay (`ArmSpaceController`) and the gaze overlay (`LookAtController`).

Times, weights and track samples are modelled as rationals wherever the
JavaScript code only performs field arithmetic on them, so that statements
can be evaluated on concrete inputs; quantities produced by transcendental
functions (`Math.sin`, `Math.cos`, `Math.pow` with real exponent) are
modelled over the reals, with the purely rational part of each computation
kept executable.
-/

namespace VrmPipeline

/-- Quaternion with components in a commutative ring, matching
`THREE.Quaternion` component order (x, y, z, w). -/
structure Quat (α : Type) where
  x : α
  y : α
  z : α
  w : α
deriving DecidableEq

namespace Quat

/-- Hamilton product `a * b`, exactly the component formulas of
`THREE.Quaternion.multiplyQuaternions(a, b)`. -/
def mul {α : Type} [CommRing α] (a b : Quat α) : Quat α :=
  ⟨a.x * b.w + a.w * b.x + a.y * b.z - a.z * b.y,
   a.y * b.w + a.w * b.y + a.z * b.x - a.x * b.z,
   a.z * b.w + a.w * b.z + a.x * b.y - a.y * b.x,
   a.w * b.w - a.x * b.x - a.y * b.y - a.z * b.z⟩

/-- Identity quaternion, the default `new THREE.Quaternion()`. -/
def one {α : Type} [CommRing α] : Quat α := ⟨0, 0, 0, 1⟩

theorem one_mul {α : Type} [CommRing α] (q : Quat α) : Quat.mul Quat.one q = q := by
  cases q
  simp only [Quat.mul, Quat.one, Quat.mk.injEq]
  refine ⟨by ring, by ring, by ring, by ring⟩

theorem mul_one {α : Type} [CommRing α] (q : Quat α) : Quat.mul q Quat.one = q := by
  cases q
  simp only [Quat.mul, Quat.one, Quat.mk.injEq]
  refine ⟨by ring, by ring, by ring, by ring⟩

end Quat

/-- Flatten a list of quaternions into the flat `(x, y, z, w)*` layout used
by the `values` array of a `THREE.QuaternionKeyframeTrack`. -/
def flattenQuats : List (Quat ℚ) → List ℚ
  | [] => []
  | q :: rest => q.x :: q.y :: q.z :: q.w :: flattenQuats rest

/-- The rotation-retargeting loop of `loadMixamoAnimation`
(src/unnamed/part_002, lines 77-92): the flat track values are read four
at a time (`fromArray`), the keyframe quaternion is premultiplied by the
source bone's parent's rest-pose world rotation and multiplied by the
inverse of the source bone's rest-pose world rotation
(`_quatA.premultiply(parentRestWorldRotation).multiply(restRotationInverse)`),
and written back (`toArray`). A trailing fragment shorter than four
entries is left untouched (well-formed quaternion tracks always have a
length that is a multiple of four). -/
def retargetRotationValues (parentRestWorldRotation restRotationInverse : Quat ℚ) :
    List ℚ → List ℚ
  | vx :: vy :: vz :: vw :: rest =>
    let q := Quat.mk vx vy vz vw
    let q2 := Quat.mul (Quat.mul parentRestWorldRotation q) restRotationInverse
    q2.x :: q2.y :: q2.z :: q2.w ::
      retargetRotationValues parentRestWorldRotation restRotationInverse rest
  | rest => rest

/-- Index-aware map, used to embed JavaScript `Array.prototype.map((v, i) => ...)`. -/
def mapIdxFrom {α β : Type} (f : ℕ → α → β) : ℕ → List α → List β
  | _, [] => []
  | i, v :: rest => f i v :: mapIdxFrom f (i + 1) rest

/-- Final rotation-track values of `loadMixamoAnimation`
(src/unnamed/part_002, lines 96-101): after retargeting, the track is
rebuilt with `track.values.map((v, i) => vrm.meta?.metaVersion === "0" && i % 2 === 0 ? -v : v)`,
i.e. when the target VRM declares the legacy metaVersion "0" every value at
an even flat index (the x and z components of each quaternion) is negated. -/
def rotationTrackFinalValues (metaVersion0 : Bool) (values : List ℚ) : List ℚ :=
  mapIdxFrom (fun i v => if metaVersion0 ∧ i % 2 = 0 then -v else v) 0 values

/-- The pure legacy rotation axis-negation: negate every even flat index
(x and z of each quaternion). -/
def negateRotationXZ (values : List ℚ) : List ℚ :=
  mapIdxFrom (fun i v => if i % 2 = 0 then -v else v) 0 values

/-- Position-track values of `loadMixamoAnimation` (src/unnamed/part_002,
lines 104-108): `track.values.map((v, i) => (vrm.meta?.metaVersion === "0" && i % 3 !== 1 ? -v : v) * hipsPositionScale)`,
i.e. every sample is multiplied by the hips scale, and when the target VRM
declares the legacy metaVersion "0" the x and z components (flat index not
congruent to 1 mod 3) are additionally negated. -/
def positionTrackValues (metaVersion0 : Bool) (hipsScale : ℚ) (values : List ℚ) : List ℚ :=
  mapIdxFrom (fun i v => (if metaVersion0 ∧ i % 3 ≠ 1 then -v else v) * hipsScale) 0 values

/-- The pure legacy position axis-negation: negate x and z, leave y. -/
def negatePositionXZ (values : List ℚ) : List ℚ :=
  mapIdxFrom (fun i v => if i % 3 ≠ 1 then -v else v) 0 values

/-- The uniform hips scale of `loadMixamoAnimation` (src/unnamed/part_002,
lines 54-57): `hipsPositionScale = vrmHipsHeight / motionHipsHeight`, the
target (VRM) rest hips height divided by the source (Mixamo) rest hips
height, both measured along the up axis. -/
def hipsPositionScale (vrmHipsHeight motionHipsHeight : ℚ) : ℚ :=
  vrmHipsHeight / motionHipsHeight

theorem mapIdxFrom_length {α β : Type} (f : ℕ → α → β) (k : ℕ) (l : List α) :
    (mapIdxFrom f k l).length = l.length := by
  induction l generalizing k with
  | nil => rfl
  | cons v rest ih => simp [mapIdxFrom, ih]

theorem mapIdxFrom_get {α β : Type} (f : ℕ → α → β) (k : ℕ) (l : List α)
    (i : ℕ) (hi : i < l.length) (ho : i < (mapIdxFrom f k l).length) :
    (mapIdxFrom f k l).get ⟨i, ho⟩ = f (k + i) (l.get ⟨i, hi⟩) := by
  induction l generalizing k i with
  | nil => exact absurd hi (by simp)
  | cons v rest ih =>
    cases i with
    | zero => simp [mapIdxFrom]
    | succ j =>
      have hj : j < rest.length := by simpa using hi
      have hjo : j < (mapIdxFrom f (k + 1) rest).length := by
        simpa [mapIdxFrom_length] using hj
      have := ih (k + 1) j hj hjo
      simp only [mapIdxFrom, List.get_cons_succ]
      rw [this]
      congr 1
      omega

theorem mapIdxFrom_congr {α β : Type} {f g : ℕ → α → β}
    (h : ∀ i a, f i a = g i a) (k : ℕ) (l : List α) :
    mapIdxFrom f k l = mapIdxFrom g k l := by
  induction l generalizing k with
  | nil => rfl
  | cons v rest ih => simp [mapIdxFrom, h, ih]

theorem mapIdxFrom_id {α : Type} (k : ℕ) (l : List α) :
    mapIdxFrom (fun _ v => v) k l = l := by
  induction l generalizing k with
  | nil => rfl
  | cons v rest ih => simp [mapIdxFrom, ih]

theorem mapIdxFrom_comp {α β γ : Type} (f : ℕ → β → γ) (g : ℕ → α → β) (k : ℕ) (l : List α) :
    mapIdxFrom f k (mapIdxFrom g k l) = mapIdxFrom (fun i v => f i (g i v)) k l := by
  induction l generalizing k with
  | nil => rfl
  | cons v rest ih => simp [mapIdxFrom, ih]

theorem mapIdxFrom_map {α β γ : Type} (f : ℕ → β → γ) (g : α → β) (k : ℕ) (l : List α) :
    mapIdxFrom f k (l.map g) = mapIdxFrom (fun i v => f i (g v)) k l := by
  induction l generalizing k with
  | nil => rfl
  | cons v rest ih => simp [mapIdxFrom, ih]

theorem map_eq_mapIdxFrom {α β : Type} (g : α → β) (k : ℕ) (l : List α) :
    l.map g = mapIdxFrom (fun _ v => g v) k l := by
  induction l generalizing k with
  | nil => rfl
  | cons v rest ih =>
    show g v :: rest.map g = g v :: mapIdxFrom (fun _ v => g v) (k + 1) rest
    rw [ih (k + 1)]

theorem mapIdxFrom_getElem {α β : Type} (f : ℕ → α → β) (k : ℕ) (l : List α) (i : ℕ) :
    (mapIdxFrom f k l)[i]? = Option.map (f (k + i)) l[i]? := by
  induction l generalizing k i with
  | nil => simp [mapIdxFrom]
  | cons v rest ih =>
    cases i with
    | zero => simp [mapIdxFrom]
    | succ j =>
      simp only [mapIdxFrom, List.getElem?_cons_succ]
      rw [ih (k + 1) j]
      have harith : k + 1 + j = k + (j + 1) := by omega
      rw [harith]

theorem positionTrackValues_getElem (mv0 : Bool) (scale : ℚ) (values : List ℚ) (i : ℕ) :
    (positionTrackValues mv0 scale values)[i]?
      = Option.map (fun v => (if mv0 ∧ i % 3 ≠ 1 then -v else v) * scale) values[i]? := by
  have h := mapIdxFrom_getElem
    (fun i v => (if mv0 ∧ i % 3 ≠ 1 then -v else v) * scale) 0 values i
  simp only [Nat.zero_add] at h
  exact h

theorem negateRotationXZ_getElem (values : List ℚ) (i : ℕ) :
    (negateRotationXZ values)[i]?
      = Option.map (fun v => if i % 2 = 0 then -v else v) values[i]? := by
  have h := mapIdxFrom_getElem (fun i v => if i % 2 = 0 then -v else v) 0 values i
  simp only [Nat.zero_add] at h
  exact h

theorem negatePositionXZ_getElem (values : List ℚ) (i : ℕ) :
    (negatePositionXZ values)[i]?
      = Option.map (fun v => if i % 3 ≠ 1 then -v else v) values[i]? := by
  have h := mapIdxFrom_getElem (fun i v => if i % 3 ≠ 1 then -v else v) 0 values i
  simp only [Nat.zero_add] at h
  exact h

theorem retargetRotationValues_flatten (P W : Quat ℚ) (qs : List (Quat ℚ)) :
    retargetRotationValues P W (flattenQuats qs)
      = flattenQuats (qs.map fun q => Quat.mul (Quat.mul P q) W) := by
  induction qs with
  | nil => rfl
  | cons q rest ih =>
    cases q
    simp [flattenQuats, retargetRotationValues, ih]

/-- C1: every rotation keyframe quaternion R of a mapped bone is retargeted
to `parentRestWorld * R * restInverse`, and when both rest-pose rotations
are the identity (as with identical, normalized rest poses, where the
target's normalized rest rotations are the identity) the retargeted track
equals the input track. -/
theorem rotation_retarget_formula (P W : Quat ℚ) (qs : List (Quat ℚ)) :
    retargetRotationValues P W (flattenQuats qs)
      = flattenQuats (qs.map fun q => Quat.mul (Quat.mul P q) W)
    ∧ (P = Quat.one → W = Quat.one →
        retargetRotationValues P W (flattenQuats qs) = flattenQuats qs) := by
  refine ⟨retargetRotationValues_flatten P W qs, ?_⟩
  rintro rfl rfl
  rw [retargetRotationValues_flatten]
  simp [Quat.one_mul, Quat.mul_one]

/-- C1 witness: a concrete rest pose and a concrete two-keyframe track. -/
theorem rotation_retarget_formula_witness :
    retargetRotationValues Quat.one Quat.one
        (flattenQuats [Quat.mk 1 2 3 4, Quat.mk 0 1 0 0])
      = flattenQuats [Quat.mk 1 2 3 4, Quat.mk 0 1 0 0] :=
  (rotation_retarget_formula Quat.one Quat.one
    [Quat.mk 1 2 3 4, Quat.mk 0 1 0 0]).2 rfl rfl

/-- C2: with positive source and target rest hip heights, retargeting
scales every position sample by `targetHeight / sourceHeight`: in the
current (non-legacy) convention every sample is `input * scale`, every Y
sample (flat index 1 mod 3) is `input * scale` under either convention,
and under the legacy convention the X and Z samples are the (separately
specified) axis-negation of the scaled sample. -/
theorem position_scale_spec (sourceHeight targetHeight : ℚ)
    (_hs : 0 < sourceHeight) (_ht : 0 < targetHeight)
    (mv0 : Bool) (values : List ℚ) (i : ℕ) (v : ℚ) (hv : values[i]? = some v) :
    ((positionTrackValues mv0 (hipsPositionScale targetHeight sourceHeight) values).length
        = values.length)
    ∧ (mv0 = false →
        (positionTrackValues mv0 (hipsPositionScale targetHeight sourceHeight) values)[i]?
          = some (v * (targetHeight / sourceHeight)))
    ∧ (i % 3 = 1 →
        (positionTrackValues mv0 (hipsPositionScale targetHeight sourceHeight) values)[i]?
          = some (v * (targetHeight / sourceHeight)))
    ∧ (mv0 = true → i % 3 ≠ 1 →
        (positionTrackValues mv0 (hipsPositionScale targetHeight sourceHeight) values)[i]?
          = some (-(v * (targetHeight / sourceHeight)))) := by
  have hget := positionTrackValues_getElem mv0 (hipsPositionScale targetHeight sourceHeight)
    values i
  rw [hv] at hget
  refine ⟨mapIdxFrom_length _ _ _, ?_, ?_, ?_⟩
  · rintro rfl
    rw [hget]
    simp [hipsPositionScale]
  · intro h1
    rw [hget]
    simp [h1, hipsPositionScale]
  · rintro rfl h1
    rw [hget, Option.map_some']
    refine congrArg some ?_
    rw [if_pos (⟨rfl, h1⟩ : true = true ∧ i % 3 ≠ 1)]
    show -v * (targetHeight / sourceHeight) = -(v * (targetHeight / sourceHeight))
    ring

/-- C2 witness: a concrete six-sample position track, scale 2 = 3/(3/2),
generic convention. -/
theorem position_scale_spec_witness :
    (0 < (3 : ℚ) / 2 ∧ 0 < (3 : ℚ) ∧ (1 : ℕ) % 3 = 1)
    ∧ (positionTrackValues false (hipsPositionScale 3 (3 / 2)) [4, 5, 6, 7, 8, 9])[1]?
        = some ((5 : ℚ) * (3 / (3 / 2))) := by
  refine ⟨⟨by norm_num, by norm_num, by decide⟩, ?_⟩
  have h := position_scale_spec (3 / 2) 3 (by norm_num) (by norm_num) false
    ([4, 5, 6, 7, 8, 9] : List ℚ) 1 5 (by decide)
  exact h.2.2.1 (by decide)

/-- C3: under the legacy (metaVersion "0") convention the retargeting
output negates exactly the X and Z components of every rotation quaternion
(flat indices 0 and 2 mod 4) and exactly the X and Z components of every
position sample (flat indices 0 and 2 mod 3, Y untouched, on top of the
uniform scale), and each of the two axis-negations is an involution:
applying it twice restores every component's original sign and magnitude. -/
theorem legacy_negation_spec :
    (∀ values : List ℚ, rotationTrackFinalValues true values = negateRotationXZ values
      ∧ rotationTrackFinalValues false values = values)
    ∧ (∀ (values : List ℚ) (i : ℕ) (v : ℚ), values[i]? = some v →
        (negateRotationXZ values)[i]?
          = some (if i % 4 = 0 ∨ i % 4 = 2 then -v else v))
    ∧ (∀ values : List ℚ, negateRotationXZ (negateRotationXZ values) = values)
    ∧ (∀ (mv0 : Bool) (scale : ℚ) (values : List ℚ),
        positionTrackValues mv0 scale values
          = if mv0 then negatePositionXZ (values.map (· * scale)) else values.map (· * scale))
    ∧ (∀ (values : List ℚ) (i : ℕ) (v : ℚ), values[i]? = some v →
        (negatePositionXZ values)[i]?
          = some (if i % 3 = 1 then v else -v))
    ∧ (∀ values : List ℚ, negatePositionXZ (negatePositionXZ values) = values) := by
  refine ⟨?_, ?_, ?_, ?_, ?_, ?_⟩
  · intro values
    constructor
    · exact mapIdxFrom_congr (by intro i a; simp) 0 values
    · have h := mapIdxFrom_congr
        (f := fun i v => if (false : Bool) = true ∧ i % 2 = 0 then -v else v)
        (g := fun _ v => v) (by intro i a; simp) 0 values
      exact h.trans (mapIdxFrom_id 0 values)
  · intro values i v hv
    rw [negateRotationXZ_getElem values i, hv]
    rcases Nat.even_or_odd i with he | hodd
    · have h2 : i % 2 = 0 := Nat.even_iff.mp he
      have h4 : i % 4 = 0 ∨ i % 4 = 2 := by omega
      simp [h2, h4]
    · have h2 : i % 2 = 1 := Nat.odd_iff.mp hodd
      have h4 : ¬(i % 4 = 0 ∨ i % 4 = 2) := by omega
      simp [h2, h4]
  · intro values
    have h := (mapIdxFrom_comp (fun i v => if i % 2 = 0 then -v else v)
      (fun i v => if i % 2 = 0 then -v else v) 0 values).trans
      ((mapIdxFrom_congr (g := fun _ v => v)
        (by intro i a; by_cases h : i % 2 = 0 <;> simp [h]) 0 values).trans
        (mapIdxFrom_id 0 values))
    exact h
  · intro mv0 scale values
    cases mv0
    · have h := mapIdxFrom_congr
        (f := fun i v => (if (false : Bool) = true ∧ i % 3 ≠ 1 then -v else v) * scale)
        (g := fun _ v => v * scale) (by intro i a; simp) 0 values
      rw [if_neg (by simp)]
      exact h.trans (map_eq_mapIdxFrom (fun v => v * scale) 0 values).symm
    · rw [if_pos rfl]
      have h1 := mapIdxFrom_map (fun i v => if i % 3 ≠ 1 then -v else v)
        (· * scale) 0 values
      have h2 := mapIdxFrom_congr
        (f := fun i v => (if (true : Bool) = true ∧ i % 3 ≠ 1 then -v else v) * scale)
        (g := fun i v => if i % 3 ≠ 1 then -(v * scale) else v * scale)
        (by intro i a; by_cases h : i % 3 = 1 <;> simp [h, neg_mul]) 0 values
      exact h2.trans h1.symm
  · intro values i v hv
    rw [negatePositionXZ_getElem values i, hv]
    by_cases h : i % 3 = 1 <;> simp [h]
  · intro values
    have h := (mapIdxFrom_comp (fun i v => if i % 3 ≠ 1 then -v else v)
      (fun i v => if i % 3 ≠ 1 then -v else v) 0 values).trans
      ((mapIdxFrom_congr (g := fun _ v => v)
        (by intro i a; by_cases h : i % 3 = 1 <;> simp [h]) 0 values).trans
        (mapIdxFrom_id 0 values))
    exact h

/-- C3 witness: a concrete quaternion track and a concrete position sample. -/
theorem legacy_negation_spec_witness :
    (([4, 5, 6, 7] : List ℚ)[2]? = some 6)
    ∧ rotationTrackFinalValues true [4, 5, 6, 7] = negateRotationXZ [4, 5, 6, 7]
    ∧ (negateRotationXZ [4, 5, 6, 7])[2]? = some (-6 : ℚ)
    ∧ negateRotationXZ (negateRotationXZ [4, 5, 6, 7]) = ([4, 5, 6, 7] : List ℚ) := by
  refine ⟨by decide, (legacy_negation_spec.1 [4, 5, 6, 7]).1, ?_, legacy_negation_spec.2.2.1 [4, 5, 6, 7]⟩
  have h := legacy_negation_spec.2.1 [4, 5, 6, 7] 2 6 (by decide)
  simpa using h

/-! Playback controller (src/src/AnimationController.js, first class).

The playback state tracks the four fields claim C4 is about: the loaded
clip names (the Clip Cache `this.animations`), the current mixer action
(keyed by its clip name, since `mixer.clipAction(clip)` returns one action
per clip), the current action name, the idle-loop-active flag and whether
an idle dwell timer (`this.idleTimeout`) is pending. Per-action loop-mode
flags and the mixer's cross-fade weights are internal to THREE's
`AnimationMixer` and are not part of the claimed state. -/

/-- The configured idle-cycle pool `this.idleAnimations`. -/
def idleAnimations : List String :=
  ["idle", "idle_happy", "idle_happy2", "bored", "looking"]

/-- Observable state of `AnimationController`. -/
structure AnimState where
  animations : List String
  currentAction : Option String
  currentActionName : Option String
  idleLoopActive : Bool
  idleTimeout : Bool
deriving DecidableEq

/-- Body of `playAnimation` from the `if (!this.animations.has(...))` check
onward (src/src/AnimationController.js lines 60-79). The idle-loop guard of
lines 56-58 is factored out into `playAnimation` below; when
`idleLoopActive` is false (as it always is on the internal call from
`stopIdleLoop`) the guard does nothing, so the split is faithful. -/
def playAnimationCore (s : AnimState) (animationName : String) : AnimState :=
  if ¬ s.animations.contains animationName then s
  else
    { s with currentActionName := some animationName,
             currentAction := some animationName }

/-- The `stopIdleLoop` method (src/src/AnimationController.js lines 95-104):
clears the idle flag and pending timer, then plays the default idle clip.
The inner `playAnimation('idle', true)` call runs with the idle flag
already cleared, so it equals `playAnimationCore`. -/
def stopIdleLoop (s : AnimState) : AnimState :=
  if ¬ s.idleLoopActive then s
  else playAnimationCore
    { s with idleLoopActive := false, idleTimeout := false } "idle"

/-- The `playAnimation` method (src/src/AnimationController.js lines 54-80):
first, if the idle loop is active and a non-idle-pool name is requested,
stop the idle loop (which itself switches to the default idle clip); then
look the name up in the Clip Cache, warn and return if absent, else make
the named clip's action current. -/
def playAnimation (s : AnimState) (animationName : String) : AnimState :=
  playAnimationCore
    (if s.idleLoopActive ∧ ¬ idleAnimations.contains animationName
     then stopIdleLoop s else s)
    animationName

/-- A reachable playback state: all clips loaded, idle cycling running
after it has picked the "bored" clip (constructor → `loadAllAnimations` →
`startIdleLoop`/`runIdleLoop`, which are reachable from the GUI). -/
def animStateIdleCycling : AnimState :=
  { animations := ["idle", "idle_happy", "idle_happy2", "bored", "looking", "wave"],
    currentAction := some "bored",
    currentActionName := some "bored",
    idleLoopActive := true,
    idleTimeout := true }

/-- C4 counterexample: in a reachable state with the idle loop active,
calling `playAnimation` with a clip name absent from the Clip Cache is NOT
a no-op: the guard at the top of `playAnimation` runs before the cache
lookup, stops the idle loop (clearing the flag and the dwell timer) and
switches the current action to the default "idle" clip, and only then does
the lookup fail. -/
theorem play_unknown_counterexample :
    animStateIdleCycling.animations.contains "unknownClip" = false
    ∧ playAnimation animStateIdleCycling "unknownClip" ≠ animStateIdleCycling
    ∧ (playAnimation animStateIdleCycling "unknownClip").idleLoopActive = false
    ∧ (playAnimation animStateIdleCycling "unknownClip").idleTimeout = false
    ∧ (playAnimation animStateIdleCycling "unknownClip").currentActionName = some "idle"
    ∧ (playAnimation animStateIdleCycling "unknownClip").currentAction = some "idle" := by
  decide

/-- C4 (amended): for every clip name absent from the Clip Cache,
`playAnimation` performs no state mutation provided the idle loop is not
active or the requested name belongs to the idle pool; when the idle loop
is active and a non-idle-pool name is requested, the call first stops the
idle loop (switching to the default idle clip) and only then fails the
lookup. -/
theorem play_unknown_noop (s : AnimState) (animationName : String)
    (hmiss : s.animations.contains animationName = false)
    (hguard : s.idleLoopActive = false ∨ idleAnimations.contains animationName = true) :
    playAnimation s animationName = s := by
  have hc : ¬ (s.animations.contains animationName = true) := by
    rw [hmiss]
    simp
  have hcore : playAnimationCore s animationName = s := by
    rw [playAnimationCore, if_pos hc]
  rcases hguard with h | h
  · rw [playAnimation, if_neg]
    · exact hcore
    · intro hand
      rw [h] at hand
      simp at hand
  · rw [playAnimation, if_neg]
    · exact hcore
    · intro hand
      exact hand.2 h

/-- C4 witness: an unknown clip requested while the idle loop is off. -/
theorem play_unknown_noop_witness :
    playAnimation
      { animations := ["idle"], currentAction := some "idle",
        currentActionName := some "idle", idleLoopActive := false,
        idleTimeout := false } "unknownClip"
    = { animations := ["idle"], currentAction := some "idle",
        currentActionName := some "idle", idleLoopActive := false,
        idleTimeout := false } :=
  play_unknown_noop _ "unknownClip" (by decide) (Or.inl (by decide))

/-! Blink controller (src/src/ExpressionController.js, `BlinkController`).

Each call that the JavaScript makes to `Math.random()` is modelled by an
explicit rational parameter in `[0, 1)`: `rSpeed` and `rDouble` for the two
draws in `startBlink`, `rSchedule` for the draw in `endBlink`. The real
value `Math.sin(blinkProgress * Math.PI)` returned while a blink is in
progress is represented symbolically by `ExprVal.sine blinkProgress`, whose
real interpretation is `ExprVal.toReal`; all state arithmetic is rational
and executable. -/

/-- Value written into the VRM expression manager: either a plain number or
`Math.sin(p * Math.PI)` for a rational progress `p`. -/
inductive ExprVal where
  | num (q : ℚ)
  | sine (p : ℚ)
deriving DecidableEq

/-- Real interpretation of an `ExprVal`. -/
noncomputable def ExprVal.toReal : ExprVal → ℝ
  | .num q => (q : ℝ)
  | .sine p => Real.sin ((p : ℝ) * Real.pi)

/-- The `this.config` object of `BlinkController`. -/
structure BlinkConfig where
  duration : ℚ
  minInterval : ℚ
  maxInterval : ℚ
  doubleBlinkChance : ℚ
  speedVariation : ℚ
deriving DecidableEq

/-- Constructor defaults (src/src/ExpressionController.js lines 78-84). -/
def defaultBlinkConfig : BlinkConfig :=
  { duration := 1/10, minInterval := 5, maxInterval := 15,
    doubleBlinkChance := 1/10, speedVariation := 2/5 }

/-- Mutable state of `BlinkController`. -/
structure BlinkState where
  nextBlinkTime : ℚ
  blinkStartTime : ℚ
  isBlinking : Bool
  blinkSpeed : ℚ
  doubleBlinkActive : Bool
  doubleBlinkCount : ℕ
  config : BlinkConfig
deriving DecidableEq

/-- Constructor state (src/src/ExpressionController.js lines 69-85). -/
def initBlinkState : BlinkState :=
  { nextBlinkTime := 0, blinkStartTime := -1, isBlinking := false,
    blinkSpeed := 1, doubleBlinkActive := false, doubleBlinkCount := 0,
    config := defaultBlinkConfig }

/-- The `startBlink` method (lines 101-117): begin a blink, draw the speed
jitter `1 - variation/2 + rSpeed * variation`, and with probability
`doubleBlinkChance` arm a double blink. -/
def startBlink (s : BlinkState) (currentTime rSpeed rDouble : ℚ) : BlinkState :=
  let s1 := { s with isBlinking := true, blinkStartTime := currentTime,
                     blinkSpeed := 1 - s.config.speedVariation / 2
                       + rSpeed * s.config.speedVariation }
  if ¬ s1.doubleBlinkActive ∧ rDouble < s1.config.doubleBlinkChance then
    { s1 with doubleBlinkActive := true, doubleBlinkCount := 0 }
  else s1

/-- The `endBlink` method (lines 133-148): either schedule the quick second
blink of a double blink 0.1 s later, or schedule the next blink at
`currentTime + minInterval + rSchedule * (maxInterval - minInterval)`. -/
def endBlink (s : BlinkState) (currentTime rSchedule : ℚ) : BlinkState :=
  if s.doubleBlinkActive ∧ s.doubleBlinkCount < 1 then
    { s with isBlinking := false, doubleBlinkCount := s.doubleBlinkCount + 1,
             nextBlinkTime := currentTime + 1/10 }
  else
    { s with isBlinking := false, doubleBlinkActive := false,
             nextBlinkTime := currentTime + s.config.minInterval
               + rSchedule * (s.config.maxInterval - s.config.minInterval) }

/-- The `calculateBlinkValue` method (lines 119-131): progress is the
elapsed time over `duration / blinkSpeed`; at progress ≥ 1 the blink ends
and 0 is returned, otherwise the value is `sin(progress * π)`. -/
def calculateBlinkValue (s : BlinkState) (currentTime rSchedule : ℚ) :
    BlinkState × ExprVal :=
  let adjustedDuration := s.config.duration / s.blinkSpeed
  let blinkProgress := (currentTime - s.blinkStartTime) / adjustedDuration
  if blinkProgress ≥ 1 then (endBlink s currentTime rSchedule, .num 0)
  else (s, .sine blinkProgress)

/-- The `update` method (lines 87-99): start a blink when the scheduled
time is reached, then return the current blink value (0 when idle). -/
def blinkUpdate (s : BlinkState) (currentTime rSpeed rDouble rSchedule : ℚ) :
    BlinkState × ExprVal :=
  let s1 := if ¬ s.isBlinking ∧ currentTime ≥ s.nextBlinkTime
            then startBlink s currentTime rSpeed rDouble else s
  if s1.isBlinking then calculateBlinkValue s1 currentTime rSchedule
  else (s1, .num 0)

/-- A three-frame run of the blink controller with the default
configuration: a blink starts at t = 0 (speed jitter 1), ends at the
t = 0.1 frame where the next blink is scheduled with rSchedule = 0.999,
and the next blink starts at t = 15.09. -/
def blinkRun1 : BlinkState := (blinkUpdate initBlinkState 0 (1/2) (9/10) 0).1

/-- Second frame of the run at t = 0.1. -/
def blinkRun2 : BlinkState := (blinkUpdate blinkRun1 (1/10) (1/2) (9/10) (999/1000)).1

/-- Third frame of the run at t = 15.09. -/
def blinkRun3 : BlinkState := (blinkUpdate blinkRun2 (1509/100) (1/2) (9/10) 0).1

theorem blinkRun1_eq : blinkRun1 =
    { nextBlinkTime := 0, blinkStartTime := 0, isBlinking := true,
      blinkSpeed := 1, doubleBlinkActive := false, doubleBlinkCount := 0,
      config := defaultBlinkConfig } := by
  rw [blinkRun1]
  norm_num [blinkUpdate, initBlinkState, startBlink, calculateBlinkValue,
    defaultBlinkConfig]

theorem blinkRun2_eq : blinkRun2 =
    { nextBlinkTime := 1509/100, blinkStartTime := 0, isBlinking := false,
      blinkSpeed := 1, doubleBlinkActive := false, doubleBlinkCount := 0,
      config := defaultBlinkConfig } := by
  rw [blinkRun2, blinkRun1_eq]
  norm_num [blinkUpdate, startBlink, calculateBlinkValue, endBlink,
    defaultBlinkConfig]

theorem blinkRun3_eq : blinkRun3 =
    { nextBlinkTime := 1509/100, blinkStartTime := 1509/100, isBlinking := true,
      blinkSpeed := 1, doubleBlinkActive := false, doubleBlinkCount := 0,
      config := defaultBlinkConfig } := by
  rw [blinkRun3, blinkRun2_eq]
  norm_num [blinkUpdate, startBlink, calculateBlinkValue, defaultBlinkConfig]

/-- C5 counterexample: with `minInterval = 5`, `maxInterval = 15`, two
consecutive blinks that are not a double-blink pair can have their START
times 15.09 s apart, outside [5, 15]: `endBlink` schedules the next blink
relative to the frame at which the previous blink ENDED (start + its
duration), not relative to its start. -/
theorem blink_gap_counterexample :
    blinkRun1.isBlinking = true
    ∧ blinkRun1.blinkStartTime = 0
    ∧ blinkRun2.isBlinking = false
    ∧ blinkRun2.doubleBlinkActive = false
    ∧ blinkRun2.nextBlinkTime = 1509/100
    ∧ blinkRun3.isBlinking = true
    ∧ blinkRun3.blinkStartTime = 1509/100
    ∧ initBlinkState.config.minInterval = 5
    ∧ initBlinkState.config.maxInterval = 15
    ∧ ¬ (blinkRun3.blinkStartTime - blinkRun1.blinkStartTime ≤ 15) := by
  rw [blinkRun1_eq, blinkRun2_eq, blinkRun3_eq]
  norm_num [initBlinkState, defaultBlinkConfig]

/-- C5 (amended): with `minInterval = 5`, `maxInterval = 15`, the interval
`endBlink` schedules from a blink's END frame to the next blink's start
lies in [5, 15) for a non-double-blink pair (the start-to-start gap exceeds
it by the blink's own duration and frame granularity); while a blink is in
progress the returned value is `sin(progress * π)` with
`progress = elapsed / (duration / speedJitter)`, and the speed jitter drawn
in `startBlink` lies in [1 - v/2, 1 + v/2) for a random draw in [0, 1). -/
theorem blink_schedule_and_value_spec :
    (∀ (s : BlinkState) (t r : ℚ), s.config.minInterval = 5 →
      s.config.maxInterval = 15 → 0 ≤ r → r < 1 →
      ¬ (s.doubleBlinkActive = true ∧ s.doubleBlinkCount < 1) →
      5 ≤ (endBlink s t r).nextBlinkTime - t
        ∧ (endBlink s t r).nextBlinkTime - t < 15)
    ∧ (∀ (s : BlinkState) (t r1 r2 r3 p : ℚ),
        (blinkUpdate s t r1 r2 r3).2 = ExprVal.sine p →
        p = (t - (blinkUpdate s t r1 r2 r3).1.blinkStartTime)
          / ((blinkUpdate s t r1 r2 r3).1.config.duration
              / (blinkUpdate s t r1 r2 r3).1.blinkSpeed))
    ∧ (∀ (s : BlinkState) (t r1 r2 : ℚ), 0 ≤ r1 → r1 < 1 →
        0 < s.config.speedVariation →
        1 - s.config.speedVariation / 2 ≤ (startBlink s t r1 r2).blinkSpeed
        ∧ (startBlink s t r1 r2).blinkSpeed < 1 + s.config.speedVariation / 2)
    ∧ (∀ p : ℚ, ExprVal.toReal (ExprVal.sine p) = Real.sin ((p : ℝ) * Real.pi)) := by
  refine ⟨?_, ?_, ?_, ?_⟩
  · intro s t r hmin hmax hr0 hr1 hnd
    have hnb : (endBlink s t r).nextBlinkTime
        = t + s.config.minInterval + r * (s.config.maxInterval - s.config.minInterval) := by
      rw [endBlink, if_neg hnd]
    rw [hnb, hmin, hmax]
    constructor
    · nlinarith
    · nlinarith
  · intro s t r1 r2 r3 p hp
    have hB : blinkUpdate s t r1 r2 r3
        = (if (if ¬ s.isBlinking ∧ t ≥ s.nextBlinkTime
                then startBlink s t r1 r2 else s).isBlinking
           then calculateBlinkValue
             (if ¬ s.isBlinking ∧ t ≥ s.nextBlinkTime then startBlink s t r1 r2 else s)
             t r3
           else ((if ¬ s.isBlinking ∧ t ≥ s.nextBlinkTime then startBlink s t r1 r2 else s),
             ExprVal.num 0)) := rfl
    rw [hB] at hp ⊢
    set s1 := if ¬ s.isBlinking ∧ t ≥ s.nextBlinkTime then startBlink s t r1 r2 else s
      with hs1
    by_cases hb : s1.isBlinking
    · rw [if_pos hb] at hp ⊢
      have hC : calculateBlinkValue s1 t r3
          = (if (t - s1.blinkStartTime) / (s1.config.duration / s1.blinkSpeed) ≥ 1
             then (endBlink s1 t r3, ExprVal.num 0)
             else (s1, ExprVal.sine
               ((t - s1.blinkStartTime) / (s1.config.duration / s1.blinkSpeed)))) := rfl
      rw [hC] at hp ⊢
      by_cases hprog : (t - s1.blinkStartTime) / (s1.config.duration / s1.blinkSpeed) ≥ 1
      · rw [if_pos hprog] at hp
        exact absurd hp (by simp)
      · rw [if_neg hprog] at hp ⊢
        simp only [ExprVal.sine.injEq] at hp
        exact hp.symm
    · rw [if_neg hb] at hp
      exact absurd hp (by simp)
  · intro s t r1 r2 hr0 hr1 hv
    have hspeed : (startBlink s t r1 r2).blinkSpeed
        = 1 - s.config.speedVariation / 2 + r1 * s.config.speedVariation := by
      rw [startBlink]
      split <;> rfl
    rw [hspeed]
    constructor
    · nlinarith
    · nlinarith
  · intro p
    rfl

/-- C5 witness: the scheduling bound applied at the concrete post-blink
state of the counterexample run with rSchedule = 1/2, plus the speed-jitter
bound at the initial state. -/
theorem blink_schedule_and_value_spec_witness :
    (5 ≤ (endBlink blinkRun2 16 (1/2)).nextBlinkTime - 16
      ∧ (endBlink blinkRun2 16 (1/2)).nextBlinkTime - 16 < 15)
    ∧ (1 - initBlinkState.config.speedVariation / 2
        ≤ (startBlink initBlinkState 0 (1/2) (9/10)).blinkSpeed
      ∧ (startBlink initBlinkState 0 (1/2) (9/10)).blinkSpeed
        < 1 + initBlinkState.config.speedVariation / 2) := by
  constructor
  · exact blink_schedule_and_value_spec.1 blinkRun2 16 (1/2)
      (by rw [blinkRun2_eq]; norm_num [defaultBlinkConfig])
      (by rw [blinkRun2_eq]; norm_num [defaultBlinkConfig])
      (by norm_num) (by norm_num)
      (by rw [blinkRun2_eq]; norm_num)
  · exact blink_schedule_and_value_spec.2.2.1 initBlinkState 0 (1/2) (9/10)
      (by norm_num) (by norm_num) (by norm_num [initBlinkState, defaultBlinkConfig])

/-! Emotion controller (src/src/ExpressionController.js, `EmotionController`)
and the per-frame write list of `ExpressionController.update`. -/

/-- Mutable state of `EmotionController` (constructor, lines 157-163; the
`pendingEmotion`/`pendingWeight` fields are created by `setEmotion`). -/
structure EmotionState where
  currentEmotion : Option String
  emotionWeight : ℚ
  targetWeight : ℚ
  transitionSpeed : ℚ
  pendingEmotion : Option String
  pendingWeight : ℚ
deriving DecidableEq

/-- Constructor state of `EmotionController`. -/
def initEmotionState : EmotionState :=
  { currentEmotion := none, emotionWeight := 0, targetWeight := 0,
    transitionSpeed := 2, pendingEmotion := none, pendingWeight := 0 }

/-- The `setEmotion` method (lines 165-179): when a different emotion is
already active, only the target weight is zeroed and the request is
queued; otherwise the identity and target are set directly (and the weight
too when `immediate`). -/
def setEmotion (es : EmotionState) (emotion : String) (weight : ℚ)
    (immediate : Bool) : EmotionState :=
  if es.currentEmotion.isSome ∧ es.currentEmotion ≠ some emotion then
    { es with targetWeight := 0, pendingEmotion := some emotion,
              pendingWeight := weight }
  else
    let es1 := { es with currentEmotion := some emotion, targetWeight := weight }
    if immediate then { es1 with emotionWeight := weight } else es1

/-- JavaScript `Math.sign`. -/
def jsSign (q : ℚ) : ℚ := if 0 < q then 1 else if q < 0 then -1 else 0

/-- The weight-ramp step of `getActiveEmotions` (lines 190-197): with
`delta = targetWeight - emotionWeight` and
`change = Math.sign(delta) * transitionSpeed * 0.016` (the code assumes
~60 fps), snap to the target when `|delta| < |change|`, else add the
step. -/
def emotionStep (es : EmotionState) : EmotionState :=
  if |es.targetWeight - es.emotionWeight|
      < |jsSign (es.targetWeight - es.emotionWeight) * es.transitionSpeed * (16/1000)|
  then { es with emotionWeight := es.targetWeight }
  else
    { es with
      emotionWeight := es.emotionWeight
        + jsSign (es.targetWeight - es.emotionWeight) * es.transitionSpeed * (16/1000) }

/-- The pending-emotion switch of `getActiveEmotions` (lines 199-204):
once the weight has just reached exactly zero and a request is queued, the
identity switches to the pending emotion and its target weight. -/
def emotionSwitch (es1 : EmotionState) : EmotionState :=
  if es1.emotionWeight = 0 ∧ es1.pendingEmotion.isSome then
    { es1 with currentEmotion := es1.pendingEmotion,
               targetWeight := es1.pendingWeight,
               pendingEmotion := none }
  else es1

/-- The `getActiveEmotions` method (lines 181-208): emit the current
emotion when its weight is positive, then (when the weight differs from
the target) apply `emotionStep` followed by `emotionSwitch`. -/
def getActiveEmotions (es : EmotionState) : EmotionState × List (String × ℚ) :=
  let emotions : List (String × ℚ) :=
    match es.currentEmotion with
    | some e => if 0 < es.emotionWeight then [(e, es.emotionWeight)] else []
    | none => []
  let es2 :=
    if es.emotionWeight ≠ es.targetWeight then emotionSwitch (emotionStep es)
    else es
  (es2, emotions)

theorem emotionStep_currentEmotion (es : EmotionState) :
    (emotionStep es).currentEmotion = es.currentEmotion := by
  rw [emotionStep]
  split <;> rfl

theorem getActiveEmotions_fst (es : EmotionState) :
    (getActiveEmotions es).1
      = if es.emotionWeight ≠ es.targetWeight then emotionSwitch (emotionStep es)
        else es := rfl

theorem getActiveEmotions_snd (es : EmotionState) :
    (getActiveEmotions es).2
      = match es.currentEmotion with
        | some e => if 0 < es.emotionWeight then [(e, es.emotionWeight)] else []
        | none => [] := rfl

theorem getActiveEmotions_emit (es : EmotionState) (e : String)
    (hcur : es.currentEmotion = some e) :
    (getActiveEmotions es).2
      = if 0 < es.emotionWeight then [(e, es.emotionWeight)] else [] := by
  rw [getActiveEmotions_snd, hcur]

theorem getActiveEmotions_emit_none (es : EmotionState)
    (hcur : es.currentEmotion = none) :
    (getActiveEmotions es).2 = [] := by
  rw [getActiveEmotions_snd, hcur]

/-- A scripted entry of `this.activeExpressions`, as created by
`setExpression` (lines 36-54): either a static value or a duration-bounded
interpolation from the start value toward the target with the default
linear easing (caller-supplied easing closures are not modelled; the
claims concern which names are written, not these values). -/
inductive ScriptedEntry where
  | static (value : ℚ)
  | timed (startTime duration startValue targetValue : ℚ)
deriving DecidableEq

/-- Value of a scripted entry at `currentTime` (the `update` closure of
`setExpression`: `progress = min(elapsed / duration, 1)`,
`value = start + (target - start) * progress`). -/
def scriptedValue (e : ScriptedEntry) (currentTime : ℚ) : ExprVal :=
  match e with
  | .static v => .num v
  | .timed startTime duration startValue targetValue =>
    let progress := min ((currentTime - startTime) / duration) 1
    .num (startValue + (targetValue - startValue) * progress)

/-- Combined per-frame state of `ExpressionController`. -/
structure ExprState where
  blink : BlinkState
  emotion : EmotionState
  activeExpressions : List (String × ScriptedEntry)
deriving DecidableEq

/-- The `ExpressionController.update` method (lines 12-34) as the ordered
list of `expressionManager.setValue(name, value)` calls it makes in one
frame: first the blink value, then the active emotions, then every entry
of `activeExpressions`. -/
def expressionUpdate (s : ExprState) (currentTime rSpeed rDouble rSchedule : ℚ) :
    ExprState × List (String × ExprVal) :=
  let bu := blinkUpdate s.blink currentTime rSpeed rDouble rSchedule
  let eu := getActiveEmotions s.emotion
  ({ s with blink := bu.1, emotion := eu.1 },
   ("blink", bu.2)
     :: (eu.2.map (fun ew => (ew.1, ExprVal.num ew.2))
          ++ s.activeExpressions.map (fun ae => (ae.1, scriptedValue ae.2 currentTime))))

/-- The VRM expression manager's value store: `setValue` calls applied in
order; a name not written this frame keeps its previously stored value. -/
def applyWrites (m : String → Option ExprVal) :
    List (String × ExprVal) → (String → Option ExprVal)
  | [] => m
  | w :: rest => applyWrites (fun k => if k = w.1 then some w.2 else m k) rest

theorem applyWrites_not_written (m : String → Option ExprVal)
    (ws : List (String × ExprVal)) (n : String)
    (h : ∀ v, (n, v) ∉ ws) : applyWrites m ws n = m n := by
  induction ws generalizing m with
  | nil => rfl
  | cons w rest ih =>
    have hn : n ≠ w.1 := by
      intro he
      exact h w.2 (by rw [he]; exact List.mem_cons_self _ _)
    rw [applyWrites, ih _ (fun v hv => h v (List.mem_cons_of_mem _ hv))]
    simp [hn]

theorem applyWrites_last (m : String → Option ExprVal)
    (ws1 ws2 : List (String × ExprVal)) (n : String) (v : ExprVal)
    (h : ∀ v2, (n, v2) ∉ ws2) :
    applyWrites m (ws1 ++ (n, v) :: ws2) n = some v := by
  induction ws1 generalizing m with
  | nil =>
    rw [List.nil_append, applyWrites,
      applyWrites_not_written _ ws2 n h]
    simp
  | cons w rest ih =>
    rw [List.cons_append, applyWrites]
    exact ih _

/-- Concrete state for the C6 counterexample: the "happy" emotion is
active with a small residual weight 0.01 that is about to reach zero
(step size `2 * 0.016 = 0.032` exceeds it). -/
def exprStateStaleCex : ExprState :=
  { blink := initBlinkState,
    emotion := { currentEmotion := some "happy", emotionWeight := 1/100,
                 targetWeight := 0, transitionSpeed := 2,
                 pendingEmotion := none, pendingWeight := 0 },
    activeExpressions := [] }

/-- Frame 1 of the counterexample run, at t = 0. -/
def staleCexFrame1 : ExprState × List (String × ExprVal) :=
  expressionUpdate exprStateStaleCex 0 (1/2) (9/10) 0

/-- Frame 2 of the counterexample run, at t = 0.01. -/
def staleCexFrame2 : ExprState × List (String × ExprVal) :=
  expressionUpdate staleCexFrame1.1 (1/100) (1/2) (9/10) 0

/-- Stored weight map after frame 1 (starting from an empty store). -/
def staleCexMap1 : String → Option ExprVal :=
  applyWrites (fun _ => none) staleCexFrame1.2

/-- Stored weight map after frame 2. -/
def staleCexMap2 : String → Option ExprVal :=
  applyWrites staleCexMap1 staleCexFrame2.2

/-- Blink state after the first counterexample frame (a blink starts at
t = 0 with speed jitter 1). -/
def blinkAfterFrame1 : BlinkState :=
  { nextBlinkTime := 0, blinkStartTime := 0, isBlinking := true,
    blinkSpeed := 1, doubleBlinkActive := false, doubleBlinkCount := 0,
    config := defaultBlinkConfig }

/-- Emotion state after the first counterexample frame: the weight has
snapped to zero but "happy" is still the current emotion. -/
def emotionAfterFrame1 : EmotionState :=
  { currentEmotion := some "happy", emotionWeight := 0, targetWeight := 0,
    transitionSpeed := 2, pendingEmotion := none, pendingWeight := 0 }

theorem staleCexFrame1_fst : staleCexFrame1.1 =
    { blink := blinkAfterFrame1,
      emotion := emotionAfterFrame1,
      activeExpressions := [] } := by
  rw [staleCexFrame1]
  norm_num [expressionUpdate, exprStateStaleCex, blinkUpdate, startBlink,
    calculateBlinkValue, initBlinkState, defaultBlinkConfig, blinkAfterFrame1,
    emotionAfterFrame1, getActiveEmotions, emotionSwitch, emotionStep, jsSign,
    abs_of_pos, abs_of_neg]

theorem staleCexFrame1_snd : staleCexFrame1.2
      = [("blink", ExprVal.sine 0), ("happy", ExprVal.num (1/100))] := by
  rw [staleCexFrame1]
  norm_num [expressionUpdate, exprStateStaleCex, blinkUpdate, startBlink,
    calculateBlinkValue, initBlinkState, defaultBlinkConfig,
    getActiveEmotions, emotionSwitch, emotionStep, jsSign, abs_of_pos, abs_of_neg]

theorem staleCexFrame2_writes :
    staleCexFrame2.2 = [("blink", ExprVal.sine (1/10))]
    ∧ staleCexFrame2.1.emotion.currentEmotion = some "happy" := by
  constructor
  · rw [staleCexFrame2, staleCexFrame1_fst]
    norm_num [expressionUpdate, getActiveEmotions, emotionSwitch, emotionStep, jsSign,
      blinkUpdate, startBlink, calculateBlinkValue, blinkAfterFrame1,
      emotionAfterFrame1, defaultBlinkConfig]
  · rw [staleCexFrame2, staleCexFrame1_fst]
    norm_num [expressionUpdate, getActiveEmotions, emotionSwitch, emotionStep, jsSign,
      emotionAfterFrame1]

/-- C6 counterexample: the weight map is NOT fully recomputed each frame.
In frame 1 "happy" is written with its residual weight 0.01 and the
emotion weight then reaches 0; in frame 2 the scheduler writes only
"blink" — the managed name "happy" (still the current emotion) is not
written, and the store keeps the stale value 0.01 from frame 1 instead of
a freshly computed 0. -/
theorem expression_stale_weight_counterexample :
    staleCexFrame2.1.emotion.currentEmotion = some "happy"
    ∧ staleCexFrame2.2.map Prod.fst = ["blink"]
    ∧ staleCexMap2 "happy" = some (ExprVal.num (1/100))
    ∧ staleCexMap2 "happy" ≠ some (ExprVal.num 0) := by
  have hmap : staleCexMap2 "happy" = some (ExprVal.num (1/100)) := by
    rw [staleCexMap2, staleCexFrame2_writes.1, staleCexMap1, staleCexFrame1_snd]
    rfl
  refine ⟨staleCexFrame2_writes.2, ?_, hmap, ?_⟩
  · rw [staleCexFrame2_writes.1]
    rfl
  · rw [hmap]
    intro h
    have h2 := Option.some.inj h
    have h3 := (ExprVal.num.injEq _ _).mp h2
    norm_num at h3

/-- C6 (amended): each frame the scheduler writes "blink" first and
unconditionally; an emotion name is emitted only while the current
emotion's weight is positive, so a weight that has reached zero is never
rewritten and the store retains the last written value for that name;
every scripted entry present in the active set is written each frame; and
when several writes hit the same name in one frame the last write wins,
while a name with no write this frame keeps its stored value. -/
theorem expression_writes_spec :
    (∀ (s : ExprState) (t r1 r2 r3 : ℚ),
      (expressionUpdate s t r1 r2 r3).2.map Prod.fst
        = "blink" :: ((getActiveEmotions s.emotion).2.map Prod.fst
            ++ s.activeExpressions.map Prod.fst))
    ∧ (∀ es : EmotionState, es.emotionWeight ≤ 0 → (getActiveEmotions es).2 = [])
    ∧ (∀ (s : ExprState) (t r1 r2 r3 : ℚ) (ae : String × ScriptedEntry),
        ae ∈ s.activeExpressions →
        (ae.1, scriptedValue ae.2 t) ∈ (expressionUpdate s t r1 r2 r3).2)
    ∧ (∀ (m : String → Option ExprVal) (ws1 ws2 : List (String × ExprVal))
        (n : String) (v : ExprVal), (∀ v2, (n, v2) ∉ ws2) →
        applyWrites m (ws1 ++ (n, v) :: ws2) n = some v)
    ∧ (∀ (m : String → Option ExprVal) (ws : List (String × ExprVal))
        (n : String), (∀ v, (n, v) ∉ ws) → applyWrites m ws n = m n) := by
  have hsnd : ∀ (s : ExprState) (t r1 r2 r3 : ℚ),
      (expressionUpdate s t r1 r2 r3).2
        = ("blink", (blinkUpdate s.blink t r1 r2 r3).2)
            :: ((getActiveEmotions s.emotion).2.map (fun ew => (ew.1, ExprVal.num ew.2))
                ++ s.activeExpressions.map (fun ae => (ae.1, scriptedValue ae.2 t))) :=
    fun _ _ _ _ _ => rfl
  refine ⟨?_, ?_, ?_, applyWrites_last, applyWrites_not_written⟩
  · intro s t r1 r2 r3
    rw [hsnd s t r1 r2 r3]
    simp only [List.map_cons, List.map_append, List.map_map]
    rfl
  · intro es hw
    rcases hcur : es.currentEmotion with _ | e
    · exact getActiveEmotions_emit_none es hcur
    · rw [getActiveEmotions_emit es e hcur, if_neg (by linarith)]
  · intro s t r1 r2 r3 ae hmem
    rw [hsnd s t r1 r2 r3]
    refine List.mem_cons_of_mem _ (List.mem_append_right _ ?_)
    exact List.mem_map_of_mem _ hmem

/-- C6 witness for the amended claim: concrete frame of the counterexample
state, plus last-writer-wins on a concrete collision. -/
theorem expression_writes_spec_witness :
    (expressionUpdate exprStateStaleCex 0 (1/2) (9/10) 0).2.map Prod.fst
      = "blink" :: ((getActiveEmotions exprStateStaleCex.emotion).2.map Prod.fst
          ++ exprStateStaleCex.activeExpressions.map Prod.fst)
    ∧ applyWrites (fun _ => none)
        ([("a", ExprVal.num 1)] ++ ("a", ExprVal.num (1/2)) :: []) "a"
      = some (ExprVal.num (1/2)) := by
  constructor
  · exact expression_writes_spec.1 exprStateStaleCex 0 (1/2) (9/10) 0
  · exact expression_writes_spec.2.2.2.1 (fun _ => none) [("a", ExprVal.num 1)] []
      "a" (ExprVal.num (1/2)) (by intro v2 hv; exact absurd hv (List.not_mem_nil _))

/-- C7: the per-frame active-emotions map contains at most one entry, every
entry carries a positive weight and names the current emotion (so two
emotions are never blended); requesting a different emotion while one is
active does not switch the identity — it only zeroes the target weight and
queues the request — and `getActiveEmotions` changes the current-emotion
identity only on a frame where the weight has reached exactly zero. -/
theorem single_emotion_invariant :
    (∀ es : EmotionState, (getActiveEmotions es).2.length ≤ 1
      ∧ ∀ p ∈ (getActiveEmotions es).2, 0 < p.2 ∧ es.currentEmotion = some p.1)
    ∧ (∀ (es : EmotionState) (e0 e : String) (w : ℚ) (imm : Bool),
        es.currentEmotion = some e0 → e0 ≠ e →
        (setEmotion es e w imm).currentEmotion = some e0
        ∧ (setEmotion es e w imm).targetWeight = 0
        ∧ (setEmotion es e w imm).pendingEmotion = some e)
    ∧ (∀ es : EmotionState,
        (getActiveEmotions es).1.currentEmotion ≠ es.currentEmotion →
        (getActiveEmotions es).1.emotionWeight = 0) := by
  refine ⟨?_, ?_, ?_⟩
  · intro es
    constructor
    · rcases hcur : es.currentEmotion with _ | e
      · rw [getActiveEmotions_emit_none es hcur]
        simp
      · rw [getActiveEmotions_emit es e hcur]
        by_cases h : 0 < es.emotionWeight <;> simp [h]
    · intro p hp
      rcases hcur : es.currentEmotion with _ | e
      · rw [getActiveEmotions_emit_none es hcur] at hp
        exact absurd hp (List.not_mem_nil p)
      · rw [getActiveEmotions_emit es e hcur] at hp
        by_cases h : 0 < es.emotionWeight
        · rw [if_pos h] at hp
          rcases List.mem_singleton.mp hp with rfl
          exact ⟨h, rfl⟩
        · rw [if_neg h] at hp
          exact absurd hp (List.not_mem_nil p)
  · intro es e0 e w imm hcur hne
    have hcond : es.currentEmotion.isSome ∧ es.currentEmotion ≠ some e := by
      rw [hcur]
      exact ⟨rfl, by simpa using hne⟩
    rw [setEmotion, if_pos hcond]
    exact ⟨hcur, rfl, rfl⟩
  · intro es hne
    rw [getActiveEmotions_fst] at hne ⊢
    by_cases hstep : es.emotionWeight ≠ es.targetWeight
    · rw [if_pos hstep] at hne ⊢
      rw [emotionSwitch] at hne ⊢
      by_cases hsw : (emotionStep es).emotionWeight = 0
          ∧ (emotionStep es).pendingEmotion.isSome
      · rw [if_pos hsw] at hne ⊢
        exact hsw.1
      · rw [if_neg hsw] at hne
        exact absurd (emotionStep_currentEmotion es) hne
    · rw [if_neg hstep] at hne
      exact absurd rfl hne

/-- Concrete emotion state for the C7 witness. -/
def emotionWitnessState : EmotionState :=
  { currentEmotion := some "happy", emotionWeight := 1, targetWeight := 1,
    transitionSpeed := 2, pendingEmotion := none, pendingWeight := 0 }

/-- C7 witness: a fade-out request while "happy" is active keeps the
identity and queues "sad"; the emitted map at a concrete state has at most
one entry. -/
theorem single_emotion_invariant_witness :
    ((setEmotion emotionWitnessState "sad" 1 false).currentEmotion = some "happy"
      ∧ (setEmotion emotionWitnessState "sad" 1 false).targetWeight = 0
      ∧ (setEmotion emotionWitnessState "sad" 1 false).pendingEmotion = some "sad")
    ∧ (getActiveEmotions initEmotionState).2.length ≤ 1 := by
  constructor
  · exact single_emotion_invariant.2.1 emotionWitnessState
      "happy" "sad" 1 false rfl (by decide)
  · exact (single_emotion_invariant.1 initEmotionState).1

/-! Gaze overlay smoothing (src/src/utils/LookAtController.js, `update`,
lines 82-96). -/

/-- A `THREE.Vector3` over the reals. -/
structure Vec3 where
  x : ℝ
  y : ℝ
  z : ℝ

/-- `THREE.Vector3.lerp(target, alpha)`: each component moves by `alpha`
of its remaining distance to the target. -/
noncomputable def Vec3.lerp (v target : Vec3) (alpha : ℝ) : Vec3 :=
  ⟨v.x + (target.x - v.x) * alpha,
   v.y + (target.y - v.y) * alpha,
   v.z + (target.z - v.z) * alpha⟩

/-- `THREE.Vector3.distanceTo`. -/
noncomputable def Vec3.distanceTo (a b : Vec3) : ℝ :=
  Real.sqrt ((a.x - b.x)^2 + (a.y - b.y)^2 + (a.z - b.z)^2)

/-- The frame-rate-independent smoothing factor of line 83:
`1 - Math.pow(1 - this.smoothing, deltaTime * 60)`. -/
noncomputable def eyeSmoothingFactor (smoothing deltaTime : ℝ) : ℝ :=
  1 - (1 - smoothing) ^ (deltaTime * 60)

/-- n frames of `this.smoothedEyeTarget.lerp(this.currentTarget, f)`
(line 93) with a constant target and factor. -/
noncomputable def smoothedEyeTargetIter (v0 target : Vec3) (f : ℝ) : ℕ → Vec3
  | 0 => v0
  | n + 1 => (smoothedEyeTargetIter v0 target f n).lerp target f

/-- Distance from the smoothed eye target to the gaze target after n
frames. -/
noncomputable def gazeDist (v0 target : Vec3) (f : ℝ) (n : ℕ) : ℝ :=
  Vec3.distanceTo (smoothedEyeTargetIter v0 target f n) target

theorem smoothedEyeTargetIter_closed (v0 target : Vec3) (f : ℝ) (n : ℕ) :
    ((smoothedEyeTargetIter v0 target f n).x - target.x
      = (1 - f)^n * (v0.x - target.x))
    ∧ ((smoothedEyeTargetIter v0 target f n).y - target.y
      = (1 - f)^n * (v0.y - target.y))
    ∧ ((smoothedEyeTargetIter v0 target f n).z - target.z
      = (1 - f)^n * (v0.z - target.z)) := by
  induction n with
  | zero => simp [smoothedEyeTargetIter]
  | succ n ih =>
    obtain ⟨hx, hy, hz⟩ := ih
    simp only [smoothedEyeTargetIter, Vec3.lerp]
    refine ⟨?_, ?_, ?_⟩
    · linear_combination (1 - f) * hx
    · linear_combination (1 - f) * hy
    · linear_combination (1 - f) * hz

theorem gazeDist_closed (v0 target : Vec3) (f : ℝ) (hf : f ≤ 1) (n : ℕ) :
    gazeDist v0 target f n = (1 - f)^n * gazeDist v0 target f 0 := by
  obtain ⟨hx, hy, hz⟩ := smoothedEyeTargetIter_closed v0 target f n
  have hg : (0:ℝ) ≤ (1 - f)^n := pow_nonneg (by linarith) n
  rw [gazeDist, gazeDist, Vec3.distanceTo, Vec3.distanceTo, hx, hy, hz]
  rw [show smoothedEyeTargetIter v0 target f 0 = v0 from rfl]
  rw [show ((1-f)^n * (v0.x - target.x))^2 + ((1-f)^n * (v0.y - target.y))^2
        + ((1-f)^n * (v0.z - target.z))^2
      = ((1-f)^n)^2 * ((v0.x - target.x)^2 + (v0.y - target.y)^2
        + (v0.z - target.z)^2) from by ring]
  rw [Real.sqrt_mul (sq_nonneg _), Real.sqrt_sq hg]

/-- C8: for every smoothing factor in (0,1), fixed positive deltaTime and
constant gaze target, the per-frame lerp with factor
`1 - (1 - smoothing)^(deltaTime*60)` makes the distance to the target
strictly decrease while nonzero, converge to zero as frames grow, and
never overshoot (each component keeps the sign of its initial offset and
the distance never exceeds the initial distance). -/
theorem gaze_smoothing_convergence (smoothing deltaTime : ℝ)
    (hs0 : 0 < smoothing) (hs1 : smoothing < 1) (hdt : 0 < deltaTime)
    (v0 target : Vec3) :
    (∀ n : ℕ, gazeDist v0 target (eyeSmoothingFactor smoothing deltaTime) n ≠ 0 →
      gazeDist v0 target (eyeSmoothingFactor smoothing deltaTime) (n + 1)
        < gazeDist v0 target (eyeSmoothingFactor smoothing deltaTime) n)
    ∧ Filter.Tendsto (gazeDist v0 target (eyeSmoothingFactor smoothing deltaTime))
        Filter.atTop (nhds 0)
    ∧ (∀ n : ℕ, gazeDist v0 target (eyeSmoothingFactor smoothing deltaTime) n
        ≤ gazeDist v0 target (eyeSmoothingFactor smoothing deltaTime) 0
      ∧ 0 ≤ ((smoothedEyeTargetIter v0 target
            (eyeSmoothingFactor smoothing deltaTime) n).x - target.x)
          * (v0.x - target.x)
      ∧ 0 ≤ ((smoothedEyeTargetIter v0 target
            (eyeSmoothingFactor smoothing deltaTime) n).y - target.y)
          * (v0.y - target.y)
      ∧ 0 ≤ ((smoothedEyeTargetIter v0 target
            (eyeSmoothingFactor smoothing deltaTime) n).z - target.z)
          * (v0.z - target.z)) := by
  set f := eyeSmoothingFactor smoothing deltaTime with hfdef
  have hb0 : (0:ℝ) < 1 - smoothing := by linarith
  have hb1 : 1 - smoothing < 1 := by linarith
  have he : 0 < deltaTime * 60 := by linarith
  have hgf : 1 - f = (1 - smoothing) ^ (deltaTime * 60) := by
    rw [hfdef, eyeSmoothingFactor]
    ring
  have hg0 : 0 < 1 - f := by
    rw [hgf]
    exact Real.rpow_pos_of_pos hb0 _
  have hg1 : 1 - f < 1 := by
    rw [hgf]
    exact Real.rpow_lt_one (le_of_lt hb0) hb1 he
  have hf1 : f ≤ 1 := by linarith
  have hd0 : 0 ≤ gazeDist v0 target f 0 := Real.sqrt_nonneg _
  have hdn : ∀ n, gazeDist v0 target f n = (1 - f)^n * gazeDist v0 target f 0 :=
    gazeDist_closed v0 target f hf1
  refine ⟨?_, ?_, ?_⟩
  · intro n hne
    have hnn : 0 ≤ gazeDist v0 target f n := Real.sqrt_nonneg _
    have hpos : 0 < gazeDist v0 target f n := lt_of_le_of_ne hnn (Ne.symm hne)
    calc gazeDist v0 target f (n+1)
        = (1-f)^(n+1) * gazeDist v0 target f 0 := hdn (n+1)
      _ = (1-f) * ((1-f)^n * gazeDist v0 target f 0) := by ring
      _ = (1-f) * gazeDist v0 target f n := by rw [hdn n]
      _ < gazeDist v0 target f n := mul_lt_of_lt_one_left hpos hg1
  · have hcv : Filter.Tendsto (fun n : ℕ => (1-f)^n * gazeDist v0 target f 0)
        Filter.atTop (nhds (0 * gazeDist v0 target f 0)) :=
      (tendsto_pow_atTop_nhds_zero_of_lt_one (le_of_lt hg0) hg1).mul_const _
    rw [zero_mul] at hcv
    have heq : gazeDist v0 target f = fun n : ℕ => (1-f)^n * gazeDist v0 target f 0 :=
      funext hdn
    rw [heq]
    exact hcv
  · intro n
    obtain ⟨hx, hy, hz⟩ := smoothedEyeTargetIter_closed v0 target f n
    have hgn : 0 ≤ (1-f)^n := pow_nonneg (le_of_lt hg0) n
    have hgle : (1-f)^n ≤ 1 := pow_le_one₀ (le_of_lt hg0) (le_of_lt hg1)
    refine ⟨?_, ?_, ?_, ?_⟩
    · rw [hdn n]
      nlinarith
    · rw [hx]
      nlinarith [mul_nonneg hgn (sq_nonneg (v0.x - target.x))]
    · rw [hy]
      nlinarith [mul_nonneg hgn (sq_nonneg (v0.y - target.y))]
    · rw [hz]
      nlinarith [mul_nonneg hgn (sq_nonneg (v0.z - target.z))]

/-- C8 witness: smoothing 1/2 at 60 fps, starting one unit from the
target. -/
theorem gaze_smoothing_convergence_witness :
    Filter.Tendsto
      (gazeDist (Vec3.mk 1 0 0) (Vec3.mk 0 0 0) (eyeSmoothingFactor (1/2) (1/60)))
      Filter.atTop (nhds 0) :=
  (gaze_smoothing_convergence (1/2) (1/60) (by norm_num) (by norm_num) (by norm_num)
    (Vec3.mk 1 0 0) (Vec3.mk 0 0 0)).2.1

/-! Arm-spacing overlay (src/src/AnimationController.js,
`ArmSpaceController` with the enabled flag, lines 233-278). -/

/-- `THREE.Quaternion.setFromEuler` for rotation order XYZ (the three.js
default), componentwise from the three.js source's half-angle formula. -/
noncomputable def setFromEulerXYZ (ex ey ez : ℝ) : Quat ℝ :=
  ⟨Real.sin (ex/2) * Real.cos (ey/2) * Real.cos (ez/2)
     + Real.cos (ex/2) * Real.sin (ey/2) * Real.sin (ez/2),
   Real.cos (ex/2) * Real.sin (ey/2) * Real.cos (ez/2)
     - Real.sin (ex/2) * Real.cos (ey/2) * Real.sin (ez/2),
   Real.cos (ex/2) * Real.cos (ey/2) * Real.sin (ez/2)
     + Real.sin (ex/2) * Real.sin (ey/2) * Real.cos (ez/2),
   Real.cos (ex/2) * Real.cos (ey/2) * Real.cos (ez/2)
     - Real.sin (ex/2) * Real.sin (ey/2) * Real.sin (ez/2)⟩

/-- Axis-angle rotation about the forward (Z) axis by angle θ. -/
noncomputable def rotationAboutZ (θ : ℝ) : Quat ℝ :=
  ⟨0, 0, Real.sin (θ/2), Real.cos (θ/2)⟩

theorem setFromEulerXYZ_zaxis (θ : ℝ) : setFromEulerXYZ 0 0 θ = rotationAboutZ θ := by
  rw [setFromEulerXYZ, rotationAboutZ]
  norm_num

/-- Observable state of `ArmSpaceController`: the `!this.vrm || !this.vrm.humanoid`
guard is modelled by `hasHumanoid`, and each upper-arm bone's local
rotation is `none` when `getNormalizedBoneNode` finds no bone. -/
structure ArmSpaceState where
  hasHumanoid : Bool
  enabled : Bool
  armSpaceOffset : ℝ
  leftUpperArm : Option (Quat ℝ)
  rightUpperArm : Option (Quat ℝ)

/-- The `ArmSpaceController.update` method (lines 253-277): when enabled
and both upper-arm bones exist, post-multiply each bone's current
quaternion by `setFromEuler(0, 0, ∓armSpaceOffset * 0.15)` — negative
angle on the left arm, positive on the right. -/
noncomputable def armSpaceUpdate (s : ArmSpaceState) : ArmSpaceState :=
  if ¬ (s.enabled ∧ s.hasHumanoid) then s
  else
    match s.leftUpperArm, s.rightUpperArm with
    | some leftArm, some rightArm =>
      { s with
        leftUpperArm :=
          some (leftArm.mul (setFromEulerXYZ 0 0 (-(s.armSpaceOffset * (15/100))))),
        rightUpperArm :=
          some (rightArm.mul (setFromEulerXYZ 0 0 (s.armSpaceOffset * (15/100)))) }
    | _, _ => s

/-- C9: when the overlay is enabled and both upper-arm bones exist, the
update multiplies a rotation of angle `armSpaceOffset * 0.15` about the
forward (Z) axis onto each arm's existing rotation (the existing rotation
is kept as the left factor, never overwritten), with opposite sign on the
two sides; at offset 2 the additional rotation angle has magnitude
0.30 rad. -/
theorem arm_space_spec (s : ArmSpaceState) (l r : Quat ℝ)
    (hh : s.hasHumanoid = true) (he : s.enabled = true)
    (hl : s.leftUpperArm = some l) (hr : s.rightUpperArm = some r) :
    (armSpaceUpdate s).leftUpperArm
      = some (l.mul (rotationAboutZ (-(s.armSpaceOffset * (15/100)))))
    ∧ (armSpaceUpdate s).rightUpperArm
      = some (r.mul (rotationAboutZ (s.armSpaceOffset * (15/100))))
    ∧ (-(s.armSpaceOffset * (15/100))) + s.armSpaceOffset * (15/100) = 0
    ∧ (s.armSpaceOffset = 2 → s.armSpaceOffset * (15/100) = 3/10) := by
  have hupd : armSpaceUpdate s =
      { s with
        leftUpperArm :=
          some (l.mul (setFromEulerXYZ 0 0 (-(s.armSpaceOffset * (15/100))))),
        rightUpperArm :=
          some (r.mul (setFromEulerXYZ 0 0 (s.armSpaceOffset * (15/100)))) } := by
    rw [armSpaceUpdate, if_neg]
    · rw [hl, hr]
    · simp [he, hh]
  rw [hupd]
  refine ⟨?_, ?_, by ring, fun h2 => by rw [h2]; norm_num⟩
  · show some (l.mul (setFromEulerXYZ 0 0 (-(s.armSpaceOffset * (15/100))))) = _
    rw [setFromEulerXYZ_zaxis]
  · show some (r.mul (setFromEulerXYZ 0 0 (s.armSpaceOffset * (15/100)))) = _
    rw [setFromEulerXYZ_zaxis]

/-- Concrete enabled overlay state with offset 2 and identity bone poses. -/
noncomputable def armSpaceWitnessState : ArmSpaceState :=
  { hasHumanoid := true, enabled := true, armSpaceOffset := 2,
    leftUpperArm := some Quat.one, rightUpperArm := some Quat.one }

/-- C9 witness: the spec applied at offset 2. -/
theorem arm_space_spec_witness :
    (armSpaceUpdate armSpaceWitnessState).leftUpperArm
      = some (Quat.mul Quat.one
          (rotationAboutZ (-(armSpaceWitnessState.armSpaceOffset * (15/100)))))
    ∧ (armSpaceUpdate armSpaceWitnessState).rightUpperArm
      = some (Quat.mul Quat.one
          (rotationAboutZ (armSpaceWitnessState.armSpaceOffset * (15/100))))
    ∧ (-(armSpaceWitnessState.armSpaceOffset * (15/100)))
        + armSpaceWitnessState.armSpaceOffset * (15/100) = 0
    ∧ (armSpaceWitnessState.armSpaceOffset = 2 →
        armSpaceWitnessState.armSpaceOffset * (15/100) = 3/10) :=
  arm_space_spec armSpaceWitnessState Quat.one Quat.one rfl rfl rfl rfl

/-! Gaze overlay configuration setters
(src/src/utils/LookAtController.js, lines 53-72). -/

/-- Configuration fields of `LookAtController`. -/
structure LookAtState where
  enabled : Bool
  eyeIntensity : ℚ
  headIntensity : ℚ
  smoothing : ℚ
  headSmoothingMultiplier : ℚ
  verticalOffset : ℚ
deriving DecidableEq

/-- Constructor defaults (lines 9-14). -/
def initLookAtState : LookAtState :=
  { enabled := true, eyeIntensity := 1, headIntensity := 3/10,
    smoothing := 1/10, headSmoothingMultiplier := 4/5, verticalOffset := 0 }

/-- `setEyeIntensity` (lines 58-60): `Math.max(0, Math.min(1, value))`. -/
def setEyeIntensity (s : LookAtState) (value : ℚ) : LookAtState :=
  { s with eyeIntensity := max 0 (min 1 value) }

/-- `setHeadIntensity` (lines 62-64). -/
def setHeadIntensity (s : LookAtState) (value : ℚ) : LookAtState :=
  { s with headIntensity := max 0 (min 1 value) }

/-- `setSmoothing` (lines 66-68). -/
def setSmoothing (s : LookAtState) (value : ℚ) : LookAtState :=
  { s with smoothing := max 0 (min 1 value) }

/-- C10: for every input value, the eye-intensity, head-intensity and
smoothing setters clamp their argument into [0,1] before storing it, and
the constructor's initial values already lie in [0,1], so these fields
always lie in [0,1] no matter what the caller passes. -/
theorem lookat_setters_clamp (s : LookAtState) (v : ℚ) :
    (0 ≤ (setEyeIntensity s v).eyeIntensity ∧ (setEyeIntensity s v).eyeIntensity ≤ 1)
    ∧ (0 ≤ (setHeadIntensity s v).headIntensity
        ∧ (setHeadIntensity s v).headIntensity ≤ 1)
    ∧ (0 ≤ (setSmoothing s v).smoothing ∧ (setSmoothing s v).smoothing ≤ 1)
    ∧ (0 ≤ initLookAtState.eyeIntensity ∧ initLookAtState.eyeIntensity ≤ 1)
    ∧ (0 ≤ initLookAtState.headIntensity ∧ initLookAtState.headIntensity ≤ 1)
    ∧ (0 ≤ initLookAtState.smoothing ∧ initLookAtState.smoothing ≤ 1) := by
  have hclamp : ∀ w : ℚ, 0 ≤ max 0 (min 1 w) ∧ max 0 (min 1 w) ≤ 1 := by
    intro w
    exact ⟨le_max_left 0 _, max_le (by norm_num) (min_le_left 1 w)⟩
  exact ⟨hclamp v, hclamp v, hclamp v,
    by norm_num [initLookAtState], by norm_num [initLookAtState],
    by norm_num [initLookAtState]⟩

end VrmPipeline
